import Mathlib

set_option linter.unnecessarySeqFocus false

/-!
Shallow embedding of `src/log_analyzer.py`.

The repository is a single-file Python program whose core is the function
`analyze_log`.  The embedding below models one run of `analyze_log` on a
source that was opened and read without I/O error, as a pure function over
the list of input lines.

Modelling decisions (each is documented at the corresponding definition):

* Input lines are classified by what the standard library does with them:
  a line is `Line.blank` when `line.strip()` is empty, `Line.invalid` when
  `json.loads` raises `JSONDecodeError`, and `Line.value v` when
  `json.loads` returns the JSON value `v`.  `json.loads` itself is Python
  standard library, not repository code, so its output is taken as given.
* JSON numbers are modelled as exact rationals (`ℚ`).  CPython's
  int/float distinction and binary floating point are not modelled; every
  claim that touches arithmetic is settled over exact arithmetic.
* Python exceptions are modelled with `Except PErr`.  The per-line
  handler of the source catches exactly `json.JSONDecodeError`, `KeyError`
  and `TypeError` (line 53 of the source); a `ValueError` (raised by
  `int(...)` on a non-numeric string, line 50) is not caught there and
  falls through to the outer `except Exception` handler (line 60), which
  returns `None`.  `StepRes.fatal` models that path.
* The Python dictionaries `status_code_counts` and `hourly_requests` are
  `defaultdict(int)`; they are modelled as insertion-ordered association
  lists, which is exactly the information a CPython dict maintains.
-/

/-- A JSON value as produced by `json.loads`: `null`, a boolean, a number,
a string, an array, or an object (a list of string-keyed fields in
insertion order; `json.loads` keeps the last binding of a duplicated key,
which `lookupLast` below reproduces). -/
inductive JsonVal where
  | null
  | bool (b : Bool)
  | num (q : ℚ)
  | str (s : String)
  | arr (elems : List JsonVal)
  | obj (fields : List (String × JsonVal))

/-- The Python exceptions that the per-line body of `analyze_log` can
raise: `TypeError` and `KeyError` are caught by the handler at line 53 of
the source, `ValueError` is not. -/
inductive PErr where
  | typeError
  | keyError
  | valueError
  deriving DecidableEq

/-- Whether `needle` is a leading piece of `hay` (used for Python's
substring membership test). -/
def listHasPre : List Char → List Char → Bool
  | [], _ => true
  | _ :: _, [] => false
  | a :: as, b :: bs => a == b && listHasPre as bs

/-- Whether `needle` occurs contiguously inside `hay`. -/
def listHasSub (needle : List Char) : List Char → Bool
  | [] => needle.isEmpty
  | b :: bs => listHasPre needle (b :: bs) || listHasSub needle bs

/-- Python's `needle in hay` test on strings: substring containment. -/
def strHasSub (needle hay : String) : Bool :=
  listHasSub needle.data hay.data

/-- Python dict lookup for a dict built by `json.loads` from `fields`:
the last binding of a key wins. -/
def lookupLast (fields : List (String × JsonVal)) (key : String) : Option JsonVal :=
  fields.foldl (fun r p => if p.1 = key then some p.2 else r) none

/-- Python's `key in v` for the decoded value `v` (source lines 38, 42,
47): key membership for a dict, substring test for a string, element
equality for a list (a string key can only equal a string element), and a
`TypeError` for the non-container values `null`, booleans and numbers. -/
def pyContains (v : JsonVal) (key : String) : Except PErr Bool :=
  match v with
  | .obj fields => .ok (fields.any (fun p => decide (p.1 = key)))
  | .str s => .ok (strHasSub key s)
  | .arr elems =>
      .ok (elems.any (fun x => match x with | .str s => decide (s = key) | _ => false))
  | _ => .error .typeError

/-- Python's `v[key]` for a string `key` (source lines 39, 44, 50): dict
lookup for an object (a `KeyError` case is kept for totality although the
source only subscripts after a successful membership test); indexing a
string or a list with a string raises `TypeError`. -/
def pyIndex (v : JsonVal) (key : String) : Except PErr JsonVal :=
  match v with
  | .obj fields =>
      match lookupLast fields key with
      | some w => .ok w
      | none => .error .keyError
  | _ => .error .typeError

/-- The numeric value Python uses for `total_response_time_sum += w`
(source line 39): numbers add as themselves, booleans add as 0 or 1
(Python `bool` is a numeric type), and every other value raises
`TypeError`. -/
def toNum : JsonVal → Except PErr ℚ
  | .num q => .ok q
  | .bool b => .ok (if b then 1 else 0)
  | _ => .error .typeError

/-- Python's `str(...)` applied to a decoded JSON value (source line 44).
CPython renders floats with shortest round-trip repr and containers via
the repr of their elements; no claim depends on those renderings, so
non-integer numbers and containers get an abbreviated deterministic
rendering here. -/
def pyStr : JsonVal → String
  | .null => "None"
  | .bool true => "True"
  | .bool false => "False"
  | .num q => if q.den = 1 then toString q.num else toString q
  | .str s => s
  | .arr _ => "<list>"
  | .obj _ => "<dict>"

/-- Whether a character counts as whitespace for Python's `int(...)`. -/
def isPyWS (c : Char) : Bool :=
  c == ' ' || c == '\t' || c == '\n' || c == '\r'

/-- Python's `int(s)` on a string (source line 50): strip surrounding
whitespace, allow one optional sign, then require a nonempty run of ASCII
digits; anything else raises `ValueError` (`none` here).  Underscore
separators and non-ASCII digits accepted by CPython cannot occur in a
two-character slice in a meaningful way and are not modelled. -/
def pyInt (s : String) : Option ℤ :=
  let t := ((s.data.dropWhile isPyWS).reverse.dropWhile isPyWS).reverse
  let signAndDigits : ℤ × List Char :=
    match t with
    | '+' :: r => (1, r)
    | '-' :: r => (-1, r)
    | r => (1, r)
  let ds := signAndDigits.2
  if ds.isEmpty then none
  else if ds.all (fun c => c.isDigit) then
    some (signAndDigits.1 * ((ds.foldl (fun a c => a * 10 + (c.toNat - '0'.toNat)) 0 : ℕ) : ℤ))
  else none

/-- Python's `w[11:13]` followed by use as the argument of `int(...)`
(source line 50).  Slicing a string clamps out-of-range bounds and
returns a (possibly empty) substring.  Slicing a list succeeds but
`int(list)` then raises `TypeError`; subscripting a number, boolean,
`None` or dict with a slice raises `TypeError`. -/
def pySliceHour : JsonVal → Except PErr String
  | .str s => .ok (String.mk ((s.data.drop 11).take 2))
  | _ => .error .typeError

/-- Outcome of the `response_time_ms` block (source lines 38-39) on the
decoded value `v`: `ok none` when the field is absent, `ok (some q)` when
the field is present with numeric value `q` (to be added to the running
sum), and the raised exception otherwise. -/
def rtOutcome (v : JsonVal) : Except PErr (Option ℚ) :=
  match pyContains v "response_time_ms" with
  | .error e => .error e
  | .ok false => .ok none
  | .ok true =>
      match pyIndex v "response_time_ms" with
      | .error e => .error e
      | .ok w =>
          match toNum w with
          | .error e => .error e
          | .ok q => .ok (some q)

/-- Outcome of the `http_status` block (source lines 42-44): `ok (some s)`
when the field is present and renders to the string `s` (Python `str`
never raises), `ok none` when absent. -/
def statusOutcome (v : JsonVal) : Except PErr (Option String) :=
  match pyContains v "http_status" with
  | .error e => .error e
  | .ok false => .ok none
  | .ok true =>
      match pyIndex v "http_status" with
      | .error e => .error e
      | .ok w => .ok (some (pyStr w))

/-- Outcome of the `timestamp` block (source lines 47-51): `ok (some h)`
when the field is present and `int(timestamp[11:13])` yields `h`,
`ok none` when absent, `error valueError` when the slice is not a valid
integer literal (this is the exception the per-line handler does not
catch). -/
def tsOutcome (v : JsonVal) : Except PErr (Option ℤ) :=
  match pyContains v "timestamp" with
  | .error e => .error e
  | .ok false => .ok none
  | .ok true =>
      match pyIndex v "timestamp" with
      | .error e => .error e
      | .ok w =>
          match pySliceHour w with
          | .error e => .error e
          | .ok hs =>
              match pyInt hs with
              | some h => .ok (some h)
              | none => .error .valueError

/-- One input line, classified by what the line splitter and `json.loads`
do with it: `blank` when the line strips to the empty string (source
lines 27-29), `invalid` when `json.loads` raises `JSONDecodeError`
(caught at source line 53), `value v` when it decodes to the JSON value
`v`. -/
inductive Line where
  | blank
  | invalid
  | value (v : JsonVal)

/-- Increment-or-insert on an insertion-ordered association list: the
behaviour of `d[k] += 1` on a `defaultdict(int)` (source lines 44, 51).
An existing key is incremented in place, a new key is appended at the
end, exactly as CPython dicts maintain insertion order. -/
def bump {α : Type} [DecidableEq α] : List (α × ℕ) → α → List (α × ℕ)
  | [], k => [(k, 1)]
  | p :: m, k => if p.1 = k then (p.1, p.2 + 1) :: m else p :: bump m k

/-- The count stored for key `k` (0 when absent), i.e. what
`defaultdict(int).get(k)` returns for the dicts built by `bump`, whose
keys never repeat. -/
def lookupCount {α : Type} [DecidableEq α] : List (α × ℕ) → α → ℕ
  | [], _ => 0
  | p :: m, k => if p.1 = k then p.2 else lookupCount m k

/-- Sum of all stored counts, i.e. `sum(d.values())`. -/
def sumVals {α : Type} (m : List (α × ℕ)) : ℕ :=
  (m.map (fun p => p.2)).sum

/-- The running accumulator of `analyze_log` (source lines 17-21). -/
structure AccState where
  total_requests : ℕ
  response_time_sum : ℚ
  status_code_counts : List (String × ℕ)
  hourly_requests : List (ℤ × ℕ)
  deriving DecidableEq

/-- The accumulator at the start of a run (source lines 17-21). -/
def AccState.init : AccState := ⟨0, 0, [], []⟩

/-- Source line 35: `total_requests += 1`. -/
def incTotal (acc : AccState) : AccState :=
  { acc with total_requests := acc.total_requests + 1 }

/-- Source line 39: add the response time when the field was present. -/
def addRT (acc : AccState) : Option ℚ → AccState
  | some q => { acc with response_time_sum := acc.response_time_sum + q }
  | none => acc

/-- Source line 44: count the rendered status code when present. -/
def addStatus (acc : AccState) : Option String → AccState
  | some s => { acc with status_code_counts := bump acc.status_code_counts s }
  | none => acc

/-- Source line 51: count the extracted hour when present. -/
def addHour (acc : AccState) : Option ℤ → AccState
  | some h => { acc with hourly_requests := bump acc.hourly_requests h }
  | none => acc

/-- Result of processing one line: `next acc diag` continues the loop
with the new accumulator (`diag` is true iff the warning of source line
55 was printed for this line), `fatal` is an exception that escapes the
per-line handler and makes the whole run return `None`. -/
inductive StepRes where
  | next (acc : AccState) (diag : Bool)
  | fatal
  deriving DecidableEq

/-- The body of the `for line in f` loop (source lines 25-55) on one
line.  A blank line is skipped; a `JSONDecodeError` is caught and
reported; on a successful decode `total_requests` is incremented first,
then the three field blocks run in order, each later block only when the
earlier ones raised nothing; a caught `TypeError`/`KeyError` keeps the
updates already applied and reports the line; a `ValueError` is not
caught here and aborts the run. -/
def processLine (acc : AccState) : Line → StepRes
  | .blank => .next acc false
  | .invalid => .next acc true
  | .value v =>
      let a1 := incTotal acc
      match rtOutcome v with
      | .error .valueError => .fatal
      | .error _ => .next a1 true
      | .ok orq =>
          let a2 := addRT a1 orq
          match statusOutcome v with
          | .error .valueError => .fatal
          | .error _ => .next a2 true
          | .ok os =>
              let a3 := addStatus a2 os
              match tsOutcome v with
              | .error .valueError => .fatal
              | .error _ => .next a3 true
              | .ok oh => .next (addHour a3 oh) false

/-- The whole reading loop: fold `processLine` over the lines, aborting
with `none` when a line raises an exception the per-line handler does not
catch (the outer handler at source lines 60-62 then returns `None`). -/
def runLines (acc : AccState) : List Line → Option AccState
  | [] => some acc
  | l :: ls =>
      match processLine acc l with
      | .next a _ => runLines a ls
      | .fatal => none

/-- Round-half-to-even of a rational to an integer: the behaviour of
CPython's `round` on exact values.  (`Rat.floor` is used instead of the
`⌊·⌋` notation so that the definition evaluates by kernel reduction;
`ratFloor_eq_floor` below identifies the two.) -/
def rheInt (r : ℚ) : ℤ :=
  if r - (Rat.floor r : ℚ) < 1 / 2 then Rat.floor r
  else if 1 / 2 < r - (Rat.floor r : ℚ) then Rat.floor r + 1
  else if Rat.floor r % 2 = 0 then Rat.floor r else Rat.floor r + 1

/-- Source line 76: `round(x, 2)`, i.e. round-half-to-even at two decimal
places, over exact rationals. -/
def round2 (q : ℚ) : ℚ := (rheInt (q * 100) : ℚ) / 100

/-- The scan of Python's `max(iterable, key=get)` after its first
element: keep the current best and replace it only on a strictly greater
count, so the first key attaining the maximum wins. -/
def maxGo (k : ℤ) (c : ℕ) : List (ℤ × ℕ) → ℤ
  | [] => k
  | (k2, c2) :: rest => if c < c2 then maxGo k2 c2 rest else maxGo k c rest

/-- Source line 72: `max(hourly_requests, key=hourly_requests.get)`,
iterating the dict keys in insertion order; `none` for the empty dict
(source lines 68-69 return `None` instead of calling `max`). -/
def pyMaxByGet : List (ℤ × ℕ) → Option ℤ
  | [] => none
  | (k, c) :: rest => some (maxGo k c rest)

/-- The dictionary returned by `analyze_log` (source lines 74-79). -/
structure AnalysisResult where
  total_requests : ℕ
  average_response_time_ms : ℚ
  status_code_counts : List (String × ℕ)
  busiest_hour : Option ℤ
  deriving DecidableEq

/-- End-of-input finalisation (source lines 64-79): the average is the
sum over the count when any request was counted and 0 otherwise, rounded
to two decimals; the busiest hour is the first key of `hourly_requests`
attaining the maximal count, or `none` when the dict is empty. -/
def finalize (acc : AccState) : AnalysisResult :=
  let avg : ℚ :=
    if 0 < acc.total_requests then acc.response_time_sum / (acc.total_requests : ℚ) else 0
  { total_requests := acc.total_requests
    average_response_time_ms := round2 avg
    status_code_counts := acc.status_code_counts
    busiest_hour := pyMaxByGet acc.hourly_requests }

/-- The function `analyze_log` (source lines 6-79) on a source that was
opened and read without I/O error, as a function of its decoded lines:
`none` is the `return None` of the outer exception handler, `some r` is
the result dictionary. -/
def analyze_log (lines : List Line) : Option AnalysisResult :=
  (runLines AccState.init lines).map finalize

/-! ### Derived per-line views

The functions below do not add behaviour: each one reads off, from the
outcome functions already defined, what one line contributes to one
accumulator field.  They are used to state and prove the claims. -/

/-- True exactly for lines on which `json.loads` succeeds (with any JSON
value), i.e. the lines on which source line 35 increments
`total_requests`. -/
def isValueLine : Line → Bool
  | .value _ => true
  | _ => false

/-- True exactly for lines that decode to a key/value mapping. -/
def isObjLine : Line → Bool
  | .value (.obj _) => true
  | _ => false

/-- Whether processing this line raises an exception that the per-line
handler does not catch (a `ValueError` from `int(...)` at source line
50), which aborts the whole run.  This depends only on the decoded value,
not on the accumulator (`processLine_fatal_iff`). -/
def lineFatal : Line → Bool
  | .value v =>
      match rtOutcome v with
      | .error e => decide (e = .valueError)
      | .ok _ =>
          match statusOutcome v with
          | .error e => decide (e = .valueError)
          | .ok _ =>
              match tsOutcome v with
              | .error e => decide (e = .valueError)
              | .ok _ => false
  | _ => false

/-- The accumulator after one line when the line is not fatal (and,
conventionally, the unchanged accumulator when it is). -/
def stepPure (acc : AccState) (l : Line) : AccState :=
  match processLine acc l with
  | .next a _ => a
  | .fatal => acc

/-- What this line adds to `total_response_time_sum`: the value of a
present numeric `response_time_ms` field, 0 otherwise. -/
def lineRT : Line → ℚ
  | .value v =>
      match rtOutcome v with
      | .ok (some q) => q
      | _ => 0
  | _ => 0

/-- The status-code string this line contributes to
`status_code_counts`, if any: the rendered `http_status` field of a line
whose `response_time_ms` block raised nothing. -/
def lineStatus : Line → Option String
  | .value v =>
      match rtOutcome v with
      | .ok _ =>
          match statusOutcome v with
          | .ok os => os
          | .error _ => none
      | .error _ => none
  | _ => none

/-- The hour this line contributes to `hourly_requests`, if any: the
parsed hour of a line on which all three field blocks raised nothing. -/
def contribHour : Line → Option ℤ
  | .value v =>
      match rtOutcome v, statusOutcome v, tsOutcome v with
      | .ok _, .ok _, .ok (some h) => some h
      | _, _, _ => none
  | _ => none

/-- Number of lines contributing hour `k`, i.e. the count `k` ends up
with in `hourly_requests`. -/
def hourCount (lines : List Line) (k : ℤ) : ℕ :=
  (lines.filterMap contribHour).count k

/-- Index of the first line contributing hour `k` (length of the list
when there is none). -/
def firstContribIdx : List Line → ℤ → ℕ
  | [], _ => 0
  | l :: t, k => if contribHour l = some k then 0 else firstContribIdx t k + 1

/-- Index of the first occurrence of `a` (length of the list when
absent). -/
def idxIn : List ℤ → ℤ → ℕ
  | [], _ => 0
  | x :: t, a => if x = a then 0 else idxIn t a + 1

/-- The order-insensitive part of an `AnalysisResult`: the total, the
average, and `status_code_counts` read as a mapping (Python compares
dicts by key lookup, not by insertion order). -/
def coreView (r : AnalysisResult) : ℕ × ℚ × (String → ℕ) :=
  (r.total_requests, r.average_response_time_ms,
    fun s => lookupCount r.status_code_counts s)

/-- The invariant tying the `hourly_requests` association list to the
plain list `hs` of contributed hours: every entry stores the exact count
of its key in `hs`, every contributed hour has an entry, keys do not
repeat, and keys appear in the order of their first occurrence in
`hs`. -/
def goodHourly (hs : List ℤ) (m : List (ℤ × ℕ)) : Prop :=
  (∀ k, lookupCount m k = hs.count k) ∧
    (∀ k, k ∈ m.map Prod.fst ↔ k ∈ hs) ∧
    (m.map Prod.fst).Nodup ∧
    (m.map Prod.fst).Pairwise (fun a b => idxIn hs a < idxIn hs b)

/-! ### Structural lemmas about one line and the loop -/

theorem processLine_fatal_iff (acc : AccState) (l : Line) :
    processLine acc l = .fatal ↔ lineFatal l = true := by
  cases l with
  | blank => simp [processLine, lineFatal]
  | invalid => simp [processLine, lineFatal]
  | value v =>
      cases h1 : rtOutcome v with
      | error e => cases e <;> simp [processLine, lineFatal, h1]
      | ok orq =>
          cases h2 : statusOutcome v with
          | error e => cases e <;> simp [processLine, lineFatal, h1, h2]
          | ok os =>
              cases h3 : tsOutcome v with
              | error e => cases e <;> simp [processLine, lineFatal, h1, h2, h3]
              | ok oh => simp [processLine, lineFatal, h1, h2, h3]

theorem processLine_eq_next (acc : AccState) (l : Line) (h : lineFatal l = false) :
    ∃ d, processLine acc l = .next (stepPure acc l) d := by
  cases h1 : processLine acc l with
  | fatal =>
      rw [processLine_fatal_iff acc l] at h1
      rw [h1] at h
      exact absurd h (by simp)
  | next a d => exact ⟨d, by simp [stepPure, h1]⟩

theorem stepPure_eq (acc : AccState) (l : Line) (h : lineFatal l = false) :
    stepPure acc l =
      { total_requests := acc.total_requests + (if isValueLine l then 1 else 0)
        response_time_sum := acc.response_time_sum + lineRT l
        status_code_counts :=
          match lineStatus l with
          | some s => bump acc.status_code_counts s
          | none => acc.status_code_counts
        hourly_requests :=
          match contribHour l with
          | some k => bump acc.hourly_requests k
          | none => acc.hourly_requests } := by
  cases l with
  | blank => simp [stepPure, processLine, isValueLine, lineRT, lineStatus, contribHour]
  | invalid => simp [stepPure, processLine, isValueLine, lineRT, lineStatus, contribHour]
  | value v =>
      cases h1 : rtOutcome v with
      | error e =>
          cases e <;>
            simp_all [stepPure, processLine, lineFatal, isValueLine, lineRT, lineStatus,
              contribHour, incTotal, addRT, addStatus, addHour, h1]
      | ok orq =>
          cases h2 : statusOutcome v with
          | error e =>
              cases e <;>
                cases orq <;>
                  simp_all [stepPure, processLine, lineFatal, isValueLine, lineRT, lineStatus,
                    contribHour, incTotal, addRT, addStatus, addHour]
          | ok os =>
              cases h3 : tsOutcome v with
              | error e =>
                  cases e <;>
                    cases orq <;>
                      cases os <;>
                        simp_all [stepPure, processLine, lineFatal, isValueLine, lineRT,
                          lineStatus, contribHour, incTotal, addRT, addStatus, addHour]
              | ok oh =>
                  cases orq <;>
                    cases os <;>
                      cases oh <;>
                        simp_all [stepPure, processLine, lineFatal, isValueLine, lineRT,
                          lineStatus, contribHour, incTotal, addRT, addStatus, addHour]

theorem runLines_eq_foldl (ls : List Line) :
    ∀ acc : AccState, (∀ l ∈ ls, lineFatal l = false) →
      runLines acc ls = some (ls.foldl stepPure acc) := by
  induction ls with
  | nil => intro acc _; rfl
  | cons l t ih =>
      intro acc h
      obtain ⟨d, hd⟩ := processLine_eq_next acc l (h l (List.mem_cons_self l t))
      rw [runLines, hd, List.foldl_cons]
      exact ih _ (fun x hx => h x (List.mem_cons_of_mem l hx))

theorem runLines_eq_none_iff (ls : List Line) :
    ∀ acc : AccState, (runLines acc ls = none ↔ ls.any lineFatal = true) := by
  induction ls with
  | nil => intro acc; simp [runLines]
  | cons l t ih =>
      intro acc
      cases h1 : processLine acc l with
      | fatal =>
          rw [processLine_fatal_iff acc l] at h1
          simp [runLines, (processLine_fatal_iff acc l).mpr h1, h1]
      | next a d =>
          have hl : lineFatal l = false := by
            by_contra hc
            have := (processLine_fatal_iff acc l).mpr (by simpa using hc)
            rw [this] at h1
            cases h1
          simp [runLines, h1, hl, ih a]

theorem runLines_append (xs ys : List Line) :
    ∀ acc : AccState,
      runLines acc (xs ++ ys) = (runLines acc xs).bind (fun m => runLines m ys) := by
  induction xs with
  | nil => intro acc; rfl
  | cons l t ih =>
      intro acc
      cases h1 : processLine acc l with
      | fatal => simp [runLines, h1]
      | next a d => simp [runLines, h1, ih a]

/-! ### Association-list counter lemmas -/

theorem bump_lookupCount {α : Type} [DecidableEq α] (m : List (α × ℕ)) (k k' : α) :
    lookupCount (bump m k) k' = lookupCount m k' + (if k = k' then 1 else 0) := by
  induction m with
  | nil => by_cases h : k = k' <;> simp [bump, lookupCount, h]
  | cons p m ih =>
      by_cases h1 : p.1 = k
      · by_cases h2 : k = k'
        · simp [bump, lookupCount, h1, h2]
        · have : ¬ p.1 = k' := by rw [h1]; exact h2
          simp [bump, lookupCount, h1, h2, this]
      · by_cases h2 : p.1 = k'
        · have hkk : ¬ k = k' := by intro hc; exact h1 (hc ▸ h2)
          have hkk' : ¬ k' = k := fun hc => hkk hc.symm
          simp [bump, lookupCount, h1, h2, hkk, hkk']
        · simp [bump, lookupCount, h1, h2, ih]

theorem sumVals_bump {α : Type} [DecidableEq α] (m : List (α × ℕ)) (k : α) :
    sumVals (bump m k) = sumVals m + 1 := by
  induction m with
  | nil => simp [bump, sumVals]
  | cons p m ih =>
      by_cases h1 : p.1 = k
      · simp [bump, sumVals, h1]; omega
      · simp only [bump, sumVals, h1, if_false, List.map_cons, List.sum_cons]
        have := ih
        simp [sumVals] at this
        omega

/-! ### Fold characterisation of the accumulator fields -/

theorem foldl_total (ls : List Line) :
    ∀ acc : AccState, (∀ l ∈ ls, lineFatal l = false) →
      (ls.foldl stepPure acc).total_requests
        = acc.total_requests + ls.countP isValueLine := by
  induction ls with
  | nil => intro acc _; simp
  | cons l t ih =>
      intro acc h
      rw [List.foldl_cons, ih _ (fun x hx => h x (List.mem_cons_of_mem l hx)),
        stepPure_eq acc l (h l (List.mem_cons_self l t))]
      by_cases hv : isValueLine l = true <;> simp [hv, List.countP_cons] <;> omega

theorem foldl_rtsum (ls : List Line) :
    ∀ acc : AccState, (∀ l ∈ ls, lineFatal l = false) →
      (ls.foldl stepPure acc).response_time_sum
        = acc.response_time_sum + (ls.map lineRT).sum := by
  induction ls with
  | nil => intro acc _; simp
  | cons l t ih =>
      intro acc h
      rw [List.foldl_cons, ih _ (fun x hx => h x (List.mem_cons_of_mem l hx)),
        stepPure_eq acc l (h l (List.mem_cons_self l t))]
      simp [add_assoc]

theorem foldl_statusLookup (ls : List Line) :
    ∀ (acc : AccState) (s : String), (∀ l ∈ ls, lineFatal l = false) →
      lookupCount (ls.foldl stepPure acc).status_code_counts s
        = lookupCount acc.status_code_counts s
            + ls.countP (fun l => decide (lineStatus l = some s)) := by
  induction ls with
  | nil => intro acc s _; simp
  | cons l t ih =>
      intro acc s h
      rw [List.foldl_cons, ih _ s (fun x hx => h x (List.mem_cons_of_mem l hx)),
        stepPure_eq acc l (h l (List.mem_cons_self l t))]
      cases hls : lineStatus l with
      | none => simp [List.countP_cons, hls]
      | some s0 =>
          by_cases h2 : s0 = s
          · simp [List.countP_cons, hls, h2, bump_lookupCount]
            omega
          · simp [List.countP_cons, hls, h2, bump_lookupCount]

theorem foldl_hourly (ls : List Line) :
    ∀ acc : AccState, (∀ l ∈ ls, lineFatal l = false) →
      (ls.foldl stepPure acc).hourly_requests
        = (ls.filterMap contribHour).foldl bump acc.hourly_requests := by
  induction ls with
  | nil => intro acc _; simp
  | cons l t ih =>
      intro acc h
      rw [List.foldl_cons, ih _ (fun x hx => h x (List.mem_cons_of_mem l hx)),
        stepPure_eq acc l (h l (List.mem_cons_self l t))]
      cases hch : contribHour l with
      | none => simp [List.filterMap_cons, hch]
      | some k => simp [List.filterMap_cons, hch]

theorem lineStatus_isValue (l : Line) (s : String) (h : lineStatus l = some s) :
    isValueLine l = true := by
  cases l <;> simp_all [lineStatus, isValueLine]

theorem contribHour_isValue (l : Line) (k : ℤ) (h : contribHour l = some k) :
    isValueLine l = true := by
  cases l <;> simp_all [contribHour, isValueLine]

/-! ### Exception-kind lemmas -/

theorem pyContains_not_valueError (v : JsonVal) (key : String) :
    pyContains v key ≠ .error .valueError := by
  cases v <;> simp [pyContains]

theorem pyIndex_not_valueError (v : JsonVal) (key : String) :
    pyIndex v key ≠ .error .valueError := by
  cases v <;> simp [pyIndex]
  case obj fields => cases lookupLast fields key <;> simp

theorem toNum_not_valueError (w : JsonVal) :
    toNum w ≠ .error .valueError := by
  cases w <;> simp [toNum]

theorem rtOutcome_not_valueError (v : JsonVal) :
    rtOutcome v ≠ .error .valueError := by
  rw [rtOutcome]
  cases hc : pyContains v "response_time_ms" with
  | error e =>
      have h2 := pyContains_not_valueError v "response_time_ms"
      rw [hc] at h2
      simp only []
      intro he
      injection he with he2
      exact h2 (by rw [he2])
  | ok b =>
      cases b with
      | false => simp
      | true =>
          cases hi : pyIndex v "response_time_ms" with
          | error e =>
              have h2 := pyIndex_not_valueError v "response_time_ms"
              rw [hi] at h2
              simp only []
              intro he
              injection he with he2
              exact h2 (by rw [he2])
          | ok w =>
              have h2 := toNum_not_valueError w
              cases hn : toNum w with
              | error e =>
                  rw [hn] at h2
                  simp only [hn]
                  intro he
                  injection he with he2
                  exact h2 (by rw [he2])
              | ok q => simp [hn]

theorem statusOutcome_not_valueError (v : JsonVal) :
    statusOutcome v ≠ .error .valueError := by
  rw [statusOutcome]
  cases hc : pyContains v "http_status" with
  | error e =>
      have h2 := pyContains_not_valueError v "http_status"
      rw [hc] at h2
      simp only []
      intro he
      injection he with he2
      exact h2 (by rw [he2])
  | ok b =>
      cases b with
      | false => simp
      | true =>
          cases hi : pyIndex v "http_status" with
          | error e =>
              have h2 := pyIndex_not_valueError v "http_status"
              rw [hi] at h2
              simp only []
              intro he
              injection he with he2
              exact h2 (by rw [he2])
          | ok w => simp

theorem tsOutcome_nonobj_not_valueError (v : JsonVal)
    (hobj : isObjLine (Line.value v) = false) :
    tsOutcome v ≠ .error .valueError := by
  cases v <;> simp_all [tsOutcome, pyContains, pyIndex, isObjLine]
  case str s => cases strHasSub "timestamp" s <;> simp
  case arr elems =>
      cases elems.any (fun x => match x with | .str s => decide (s = "timestamp") | _ => false) <;>
        simp

theorem addRT_total (acc : AccState) (o : Option ℚ) :
    (addRT acc o).total_requests = acc.total_requests := by
  cases o <;> rfl

theorem addStatus_total (acc : AccState) (o : Option String) :
    (addStatus acc o).total_requests = acc.total_requests := by
  cases o <;> rfl

theorem addHour_total (acc : AccState) (o : Option ℤ) :
    (addHour acc o).total_requests = acc.total_requests := by
  cases o <;> rfl

/-! ### Helpers for runs that return a result -/

theorem analyze_log_some (lines : List Line) (r : AnalysisResult)
    (h : analyze_log lines = some r) :
    (∀ l ∈ lines, lineFatal l = false) ∧
      r = finalize (lines.foldl stepPure AccState.init) := by
  have hno : ∀ l ∈ lines, lineFatal l = false := by
    intro l hl
    by_contra hc
    have hany : lines.any lineFatal = true :=
      List.any_eq_true.mpr ⟨l, hl, by simpa using hc⟩
    have hnone := (runLines_eq_none_iff lines AccState.init).mpr hany
    rw [analyze_log, hnone] at h
    cases h
  refine ⟨hno, ?_⟩
  have hrun := runLines_eq_foldl lines AccState.init hno
  rw [analyze_log, hrun] at h
  injection h with h'
  exact h'.symm

theorem runLines_all_blank (ls : List Line) :
    ∀ acc : AccState, (∀ l ∈ ls, l = Line.blank) → runLines acc ls = some acc := by
  induction ls with
  | nil => intro acc _; rfl
  | cons l t ih =>
      intro acc h
      have hl : l = Line.blank := h l (List.mem_cons_self l t)
      subst hl
      rw [runLines]
      show runLines acc t = some acc
      exact ih acc (fun x hx => h x (List.mem_cons_of_mem _ hx))

/-! ### Claim C1 -/

/-- C1, counterexample.  A readable source whose single line decodes
cleanly but carries the timestamp `"0000-00-00Txx:00:00Z"` — a per-line
problem of exactly the kind the claim calls non-fatal (an invalid
timestamp-hour substring) — makes `analyze_log` return the failure value
`None`: `int("xx")` raises `ValueError`, which the per-line handler does
not catch. -/
theorem c1_counterexample :
    analyze_log
        [Line.value (JsonVal.obj [("timestamp", JsonVal.str "0000-00-00Txx:00:00Z")])]
      = none := by
  decide

/-- C1, amended.  The run returns the failure value exactly when some
line raises an exception the per-line handler does not catch, namely a
`ValueError` from parsing the timestamp-hour substring; structural decode
failures and field type mismatches (`TypeError`/`KeyError`) are always
handled locally and never abort the run. -/
theorem c1_amended_none_iff_fatal (lines : List Line) :
    analyze_log lines = none ↔ lines.any lineFatal = true := by
  rw [analyze_log, Option.map_eq_none']
  exact runLines_eq_none_iff lines AccState.init

/-! ### Claim C4 -/

/-- C4, counterexample.  The line `5` parses as valid JSON but not as a
key/value mapping, yet it is counted: `total_requests` is 1 while the
number of lines that decode to structured records (mappings) is 0. -/
theorem c4_counterexample :
    (analyze_log [Line.value (JsonVal.num 5)]).map (fun r => r.total_requests)
        ≠ some (List.countP isObjLine [Line.value (JsonVal.num 5)]) ∧
      (analyze_log [Line.value (JsonVal.num 5)]).map (fun r => r.total_requests)
        = some 1 ∧
      List.countP isObjLine [Line.value (JsonVal.num 5)] = 0 := by
  refine ⟨?_, ?_, ?_⟩ <;> decide

/-- C4, amended.  Whenever the run returns a result, `total_requests`
equals the number of non-empty lines on which `json.loads` succeeds with
any JSON value (not only key/value mappings); the counter is incremented
immediately on successful decode and later field errors never retract
it. -/
theorem c4_amended_total_counts_decoded (lines : List Line) (r : AnalysisResult)
    (h : analyze_log lines = some r) :
    r.total_requests = lines.countP isValueLine := by
  obtain ⟨hno, hr⟩ := analyze_log_some lines r h
  rw [hr]
  show (lines.foldl stepPure AccState.init).total_requests = _
  rw [foldl_total lines AccState.init hno]
  simp [AccState.init]

/-- C4, witness for the amended theorem at a concrete input: one decoded
empty object gives `total_requests = 1`, the number of decoded lines. -/
theorem c4_amended_witness :
    (⟨1, 0, [], none⟩ : AnalysisResult).total_requests
      = List.countP isValueLine [Line.value (JsonVal.obj [])] :=
  c4_amended_total_counts_decoded [Line.value (JsonVal.obj [])] ⟨1, 0, [], none⟩
    (by
      simp [analyze_log, runLines, processLine, rtOutcome, statusOutcome, tsOutcome,
        pyContains, incTotal, addRT, addStatus, addHour, finalize, round2, rheInt,
        pyMaxByGet, AccState.init, Rat.floor_def'])

/-! ### Claim C5 -/

theorem runLines_bound (ls : List Line) :
    ∀ acc0 acc : AccState,
      sumVals acc0.status_code_counts ≤ acc0.total_requests →
      sumVals acc0.hourly_requests ≤ acc0.total_requests →
      runLines acc0 ls = some acc →
      sumVals acc.status_code_counts ≤ acc.total_requests ∧
        sumVals acc.hourly_requests ≤ acc.total_requests := by
  induction ls with
  | nil =>
      intro acc0 acc h1 h2 hr
      rw [runLines] at hr
      injection hr with hr'
      exact hr' ▸ ⟨h1, h2⟩
  | cons l t ih =>
      intro acc0 acc h1 h2 hr
      cases hp : processLine acc0 l with
      | fatal => rw [runLines, hp] at hr; cases hr
      | next a d =>
          rw [runLines, hp] at hr
          have hlf : lineFatal l = false := by
            by_contra hc
            have hfat := (processLine_fatal_iff acc0 l).mpr (by simpa using hc)
            rw [hfat] at hp
            cases hp
          have ha : a = stepPure acc0 l := by simp [stepPure, hp]
          subst ha
          refine ih _ acc ?_ ?_ hr
          · rw [stepPure_eq acc0 l hlf]
            cases hls : lineStatus l with
            | none =>
                by_cases hv : isValueLine l = true <;> simp [hv, hls] <;> omega
            | some s =>
                have hv := lineStatus_isValue l s hls
                simp [hv, hls, sumVals_bump]
                omega
          · rw [stepPure_eq acc0 l hlf]
            cases hch : contribHour l with
            | none =>
                by_cases hv : isValueLine l = true <;> simp [hv, hch] <;> omega
            | some k =>
                have hv := contribHour_isValue l k hch
                simp [hv, hch, sumVals_bump]
                omega

/-- C5, confirmed.  After processing any list of lines (hence after every
per-line update: the state reached after `k` lines is the state of the
run on the length-`k` prefix), the stored status-code counts sum to at
most `total_requests`, and likewise for the hourly counts; the result
returned by `analyze_log` copies these fields unchanged. -/
theorem c5_sums_bounded_by_total (lines : List Line) (acc : AccState)
    (h : runLines AccState.init lines = some acc) :
    sumVals acc.status_code_counts ≤ acc.total_requests ∧
      sumVals acc.hourly_requests ≤ acc.total_requests :=
  runLines_bound lines AccState.init acc (by simp [AccState.init, sumVals])
    (by simp [AccState.init, sumVals]) h

/-- C5, witness: a concrete one-line run, one status key and one hour
key, both sums equal to 1 and bounded by the single counted request. -/
theorem c5_witness :
    sumVals [("ok", 1)] ≤ 1 ∧ sumVals [((5 : ℤ), 1)] ≤ 1 :=
  c5_sums_bounded_by_total
    [Line.value (JsonVal.obj [("http_status", JsonVal.str "ok"),
      ("timestamp", JsonVal.str "0000-00-00T05:00:00Z")])]
    ⟨1, 0, [("ok", 1)], [(5, 1)]⟩ (by decide)

/-! ### Claim C7 -/

/-- C7, confirmed.  A source with no lines, or only lines that are blank
after trimming, yields `total_requests = 0`, average 0, an empty status
map and the absent busiest hour. -/
theorem c7_empty_input (lines : List Line) (h : ∀ l ∈ lines, l = Line.blank) :
    analyze_log lines = some ⟨0, 0, [], none⟩ := by
  rw [analyze_log, runLines_all_blank lines AccState.init h]
  show some (finalize AccState.init) = _
  simp [finalize, round2, rheInt, pyMaxByGet, AccState.init, Rat.floor_def']

/-- C7, witness: the zero-line source and a one-blank-line source. -/
theorem c7_witness :
    analyze_log [] = some ⟨0, 0, [], none⟩ ∧
      analyze_log [Line.blank] = some ⟨0, 0, [], none⟩ :=
  ⟨c7_empty_input [] (by intro l hl; cases hl),
    c7_empty_input [Line.blank] (by intro l hl; simpa using hl)⟩

/-! ### Claim C8 -/

/-- C8, confirmed.  For a line that decodes to `v` whose
`response_time_ms` field is present (`pyContains … = ok true`,
`pyIndex … = ok w`) with a non-numeric value (`toNum w` raises
`TypeError`, which is exactly the set of values on which CPython's
`sum += value` raises), the line's processing stops there with a
diagnostic: the accumulator changes only by the `total_requests`
increment — nothing is added to the response-time sum, the status counts
or the hourly counts — and, by the append equation, the lines before and
after it are processed exactly as they would be without it. -/
theorem c8_bad_response_time (v w : JsonVal)
    (h1 : pyContains v "response_time_ms" = .ok true)
    (h2 : pyIndex v "response_time_ms" = .ok w)
    (h3 : toNum w = .error .typeError)
    (acc a0 : AccState) (pre post : List Line) :
    processLine acc (Line.value v) = .next (incTotal acc) true ∧
      runLines a0 (pre ++ Line.value v :: post)
        = (runLines a0 pre).bind (fun m => runLines (incTotal m) post) := by
  have hrt : rtOutcome v = .error .typeError := by
    simp [rtOutcome, h1, h2, h3]
  constructor
  · simp [processLine, hrt]
  · rw [runLines_append]
    have hstep : ∀ m : AccState,
        runLines m (Line.value v :: post) = runLines (incTotal m) post := by
      intro m
      rw [runLines]
      simp [processLine, hrt]
    cases runLines a0 pre <;> simp [hstep]

/-- C8, witness: a concrete object whose `response_time_ms` is the
string `"fast"`; processing it from the initial state only increments
the total and reports the line. -/
theorem c8_witness :
    processLine AccState.init
        (Line.value (JsonVal.obj [("response_time_ms", JsonVal.str "fast"),
          ("http_status", JsonVal.str "ok")]))
      = .next (incTotal AccState.init) true :=
  (c8_bad_response_time
      (JsonVal.obj [("response_time_ms", JsonVal.str "fast"),
        ("http_status", JsonVal.str "ok")])
      (JsonVal.str "fast") rfl rfl rfl AccState.init AccState.init [] []).1

/-! ### Claim C9 -/

/-- C9, confirmed.  A non-empty line whose text parses as valid JSON but
not as a key/value mapping is still counted: processing it increments
`total_requests` by one and never aborts the run, so for such input
`total_requests` (here 1) exceeds the number of lines decoding to
mappings (0). -/
theorem c9_nonmapping_counted (v : JsonVal)
    (hobj : isObjLine (Line.value v) = false) (acc : AccState) :
    (∃ a d, processLine acc (Line.value v) = .next a d ∧
        a.total_requests = acc.total_requests + 1) ∧
      (analyze_log [Line.value v]).map (fun r => r.total_requests) = some 1 ∧
      List.countP isObjLine [Line.value v] = 0 := by
  have key : ∀ m : AccState, ∃ a d, processLine m (Line.value v) = .next a d ∧
      a.total_requests = m.total_requests + 1 := by
    intro m
    cases h1 : rtOutcome v with
    | error e =>
        cases e with
        | valueError => exact absurd h1 (rtOutcome_not_valueError v)
        | typeError => exact ⟨incTotal m, true, by simp [processLine, h1], rfl⟩
        | keyError => exact ⟨incTotal m, true, by simp [processLine, h1], rfl⟩
    | ok orq =>
        cases h2 : statusOutcome v with
        | error e =>
            cases e with
            | valueError => exact absurd h2 (statusOutcome_not_valueError v)
            | typeError =>
                exact ⟨addRT (incTotal m) orq, true, by simp [processLine, h1, h2],
                  by rw [addRT_total]; rfl⟩
            | keyError =>
                exact ⟨addRT (incTotal m) orq, true, by simp [processLine, h1, h2],
                  by rw [addRT_total]; rfl⟩
        | ok os =>
            cases h3 : tsOutcome v with
            | error e =>
                cases e with
                | valueError => exact absurd h3 (tsOutcome_nonobj_not_valueError v hobj)
                | typeError =>
                    exact ⟨addStatus (addRT (incTotal m) orq) os, true,
                      by simp [processLine, h1, h2, h3],
                      by rw [addStatus_total, addRT_total]; rfl⟩
                | keyError =>
                    exact ⟨addStatus (addRT (incTotal m) orq) os, true,
                      by simp [processLine, h1, h2, h3],
                      by rw [addStatus_total, addRT_total]; rfl⟩
            | ok oh =>
                exact ⟨addHour (addStatus (addRT (incTotal m) orq) os) oh, false,
                  by simp [processLine, h1, h2, h3],
                  by rw [addHour_total, addStatus_total, addRT_total]; rfl⟩
  refine ⟨key acc, ?_, ?_⟩
  · obtain ⟨a, d, hpd, ht⟩ := key AccState.init
    have hrun : runLines AccState.init [Line.value v] = some a := by
      rw [runLines, hpd]
      rfl
    rw [analyze_log, hrun]
    show some ((finalize a).total_requests) = some 1
    have h4 : (finalize a).total_requests = a.total_requests := rfl
    rw [h4, ht]
    rfl
  · simp [List.countP_cons, hobj]

/-- C9, witness: the line `5`. -/
theorem c9_witness :
    (analyze_log [Line.value (JsonVal.num 5)]).map (fun r => r.total_requests)
        = some 1 ∧
      List.countP isObjLine [Line.value (JsonVal.num 5)] = 0 :=
  ⟨(c9_nonmapping_counted (JsonVal.num 5) rfl AccState.init).2.1,
    (c9_nonmapping_counted (JsonVal.num 5) rfl AccState.init).2.2⟩

/-! ### Claim C6 -/

theorem ratFloor_eq_floor (q : ℚ) : (Rat.floor q : ℤ) = ⌊q⌋ := by
  rw [Rat.floor_def', Rat.floor_def]

theorem rheInt_close (r : ℚ) : |(rheInt r : ℚ) - r| ≤ 1 / 2 := by
  have h1 : (⌊r⌋ : ℚ) ≤ r := Int.floor_le r
  have h2 : r < ⌊r⌋ + 1 := Int.lt_floor_add_one r
  rw [rheInt, ratFloor_eq_floor]
  split_ifs with hlt hgt heven
  · rw [abs_sub_comm, abs_of_nonneg (by linarith)]
    linarith
  · push_cast
    rw [abs_of_nonneg (by linarith)]
    linarith
  · rw [abs_sub_comm, abs_of_nonneg (by linarith)]
    linarith
  · push_cast
    rw [abs_of_nonneg (by linarith)]
    linarith

/-- C6, confirmed (over the exact-rational model of Python numbers).
At end of input the reported average is
`round2 (response_time_sum / total_requests)` when `total_requests > 0`
and `round2 0 = 0` otherwise, where `round2` rounds half-to-even at two
decimal places: the reported value is an integer multiple of `1/100` and
differs from the exact quotient by at most `1/200`. -/
theorem c6_average_rounded (lines : List Line) (acc : AccState)
    (h : runLines AccState.init lines = some acc) :
    analyze_log lines = some (finalize acc) ∧
      (finalize acc).average_response_time_ms
        = round2 (if 0 < acc.total_requests then
            acc.response_time_sum / (acc.total_requests : ℚ) else 0) ∧
      (∃ n : ℤ, (finalize acc).average_response_time_ms = (n : ℚ) / 100) ∧
      |(finalize acc).average_response_time_ms
          - (if 0 < acc.total_requests then
              acc.response_time_sum / (acc.total_requests : ℚ) else 0)| ≤ 1 / 200 := by
  refine ⟨?_, rfl, ?_, ?_⟩
  · rw [analyze_log, h]
    rfl
  · exact ⟨rheInt ((if 0 < acc.total_requests then
      acc.response_time_sum / (acc.total_requests : ℚ) else 0) * 100), rfl⟩
  · have hc := rheInt_close ((if 0 < acc.total_requests then
      acc.response_time_sum / (acc.total_requests : ℚ) else 0) * 100)
    have hdef : (finalize acc).average_response_time_ms
        = (rheInt ((if 0 < acc.total_requests then
            acc.response_time_sum / (acc.total_requests : ℚ) else 0) * 100) : ℚ) / 100 := rfl
    rw [hdef]
    set X : ℚ := (if 0 < acc.total_requests then
      acc.response_time_sum / (acc.total_requests : ℚ) else 0) with hX
    have habs : |(rheInt (X * 100) : ℚ) / 100 - X|
        = |(rheInt (X * 100) : ℚ) - X * 100| / 100 := by
      rw [show (rheInt (X * 100) : ℚ) / 100 - X
          = ((rheInt (X * 100) : ℚ) - X * 100) / 100 by ring, abs_div]
      norm_num
    rw [habs]
    linarith

/-- C6, witness: a single line with response time 100 gives the result
`finalize ⟨1, 100, [], []⟩`, whose average the theorem describes. -/
theorem c6_witness :
    analyze_log [Line.value (JsonVal.obj [("response_time_ms", JsonVal.num 100)])]
      = some (finalize ⟨1, 100, [], []⟩) :=
  (c6_average_rounded [Line.value (JsonVal.obj [("response_time_ms", JsonVal.num 100)])]
      ⟨1, 100, [], []⟩
      (by simp [runLines, processLine, rtOutcome, statusOutcome, tsOutcome, pyContains,
        pyIndex, toNum, lookupLast, pySliceHour, pyInt, strHasSub, listHasSub, listHasPre,
        isPyWS, pyStr, bump, incTotal, addRT, addStatus, addHour, AccState.init])).1

/-! ### Keys of the hourly map -/

theorem bump_keys_mem {α : Type} [DecidableEq α] (m : List (α × ℕ)) (k k' : α) :
    k' ∈ (bump m k).map Prod.fst ↔ k' = k ∨ k' ∈ m.map Prod.fst := by
  induction m with
  | nil => simp [bump]
  | cons p m ih =>
      by_cases h1 : p.1 = k
      · simp [bump, h1]
      · simp [bump, h1, ih]
        tauto

theorem foldl_bump_keys_mem (hs : List ℤ) :
    ∀ (m0 : List (ℤ × ℕ)) (k : ℤ),
      k ∈ ((hs.foldl bump m0).map Prod.fst) ↔ k ∈ m0.map Prod.fst ∨ k ∈ hs := by
  induction hs with
  | nil => intro m0 k; simp
  | cons x t ih =>
      intro m0 k
      rw [List.foldl_cons, ih]
      rw [bump_keys_mem]
      simp
      tauto

theorem maxGo_mem (rest : List (ℤ × ℕ)) :
    ∀ (k : ℤ) (c : ℕ), maxGo k c rest = k ∨ maxGo k c rest ∈ rest.map Prod.fst := by
  induction rest with
  | nil => intro k c; exact Or.inl rfl
  | cons p t ih =>
      intro k c
      rw [maxGo]
      by_cases h1 : c < p.2
      · rw [if_pos h1]
        rcases ih p.1 p.2 with h | h
        · exact Or.inr (by simp [h])
        · exact Or.inr (by simp [h])
      · rw [if_neg h1]
        rcases ih k c with h | h
        · exact Or.inl h
        · exact Or.inr (by simp [h])

theorem pyMaxByGet_mem (m : List (ℤ × ℕ)) (h : ℤ) (hm : pyMaxByGet m = some h) :
    h ∈ m.map Prod.fst := by
  cases m with
  | nil => cases hm
  | cons p rest =>
      rw [pyMaxByGet] at hm
      injection hm with hm'
      rcases maxGo_mem rest p.1 p.2 with h2 | h2
      · simp [← hm', h2]
      · simp [← hm', h2]

/-! ### Claim C2 -/

/-- C2, counterexample.  The timestamp `"0000-00-00T99:00:00Z"` has the
numeric substring `"99"` at indices 11-13; the code performs no 0-23
range check, so `hourly_requests` acquires the key 99 and `busiest_hour`
is reported as 99 — outside 0-23.  (And a non-numeric substring does not
produce a per-field malformed-line event at all: as claim C1's
counterexample shows, it aborts the whole run.) -/
theorem c2_counterexample :
    (analyze_log
          [Line.value (JsonVal.obj [("timestamp", JsonVal.str "0000-00-00T99:00:00Z")])]).map
        (fun r => r.busiest_hour) = some (some 99) ∧
      runLines AccState.init
          [Line.value (JsonVal.obj [("timestamp", JsonVal.str "0000-00-00T99:00:00Z")])]
        = some ⟨1, 0, [], [(99, 1)]⟩ ∧
      ¬ ((99 : ℤ) ≤ 23) ∧
      analyze_log
          [Line.value (JsonVal.obj [("timestamp", JsonVal.str "0000-00-00T9x:00:00Z")])]
        = none := by
  refine ⟨?_, ?_, ?_, ?_⟩ <;> decide

/-- C2, amended.  The two-character substring at indices 11-13 of a
present timestamp is parsed by Python's `int` with no range check: any
integer it yields (also one outside 0-23, or a negative one such as
`"-5"`) becomes a key of `hourly_requests`, and a substring that fails
integer parsing aborts the entire run rather than only that field.  What
remains true is that a reported busiest hour always is the parsed hour
substring of some input line: whenever the run returns a result whose
`busiest_hour` is `some h`, at least one input line contributed the hour
`h`. -/
theorem c2_amended_busiest_contributed (lines : List Line) (r : AnalysisResult) (h : ℤ)
    (h1 : analyze_log lines = some r) (h2 : r.busiest_hour = some h) :
    0 < hourCount lines h := by
  obtain ⟨hno, hr⟩ := analyze_log_some lines r h1
  rw [hr] at h2
  have hb : pyMaxByGet (lines.foldl stepPure AccState.init).hourly_requests = some h := h2
  rw [foldl_hourly lines AccState.init hno] at hb
  have hkeys := pyMaxByGet_mem _ h hb
  rw [foldl_bump_keys_mem] at hkeys
  rcases hkeys with hk | hk
  · simp [AccState.init] at hk
  · rw [hourCount]
    exact List.count_pos_iff.mpr hk

/-- C2, witness for the amended theorem: one line with hour 10 makes the
busiest hour 10, and indeed that hour was contributed by a line. -/
theorem c2_witness :
    0 < hourCount
        [Line.value (JsonVal.obj [("timestamp", JsonVal.str "0000-00-00T10:00:00Z")])]
        10 :=
  c2_amended_busiest_contributed
    [Line.value (JsonVal.obj [("timestamp", JsonVal.str "0000-00-00T10:00:00Z")])]
    (finalize ⟨1, 0, [], [(10, 1)]⟩) 10
    (by
      rw [analyze_log,
        (by decide : runLines AccState.init
          [Line.value (JsonVal.obj [("timestamp", JsonVal.str "0000-00-00T10:00:00Z")])]
            = some ⟨1, 0, [], [(10, 1)]⟩)]
      rfl)
    rfl

/-! ### Claim C3 -/

/-- C3, counterexample.  Two lines with one request each at hours 10 and
11: in one order the busiest hour is 10, in the swapped order it is 11,
so the `AnalysisResult` is not invariant under reordering (the tie in
`hourly_requests` is broken by dict insertion order, which follows line
order). -/
theorem c3_counterexample :
    ([Line.value (JsonVal.obj [("timestamp", JsonVal.str "0000-00-00T10:00:00Z")]),
        Line.value (JsonVal.obj [("timestamp", JsonVal.str "0000-00-00T11:00:00Z")])].Perm
      [Line.value (JsonVal.obj [("timestamp", JsonVal.str "0000-00-00T11:00:00Z")]),
        Line.value (JsonVal.obj [("timestamp", JsonVal.str "0000-00-00T10:00:00Z")])]) ∧
      (analyze_log
            [Line.value (JsonVal.obj [("timestamp", JsonVal.str "0000-00-00T10:00:00Z")]),
              Line.value (JsonVal.obj [("timestamp", JsonVal.str "0000-00-00T11:00:00Z")])]).map
          (fun r => r.busiest_hour) = some (some 10) ∧
      (analyze_log
            [Line.value (JsonVal.obj [("timestamp", JsonVal.str "0000-00-00T11:00:00Z")]),
              Line.value (JsonVal.obj [("timestamp", JsonVal.str "0000-00-00T10:00:00Z")])]).map
          (fun r => r.busiest_hour) = some (some 11) ∧
      analyze_log
          [Line.value (JsonVal.obj [("timestamp", JsonVal.str "0000-00-00T10:00:00Z")]),
            Line.value (JsonVal.obj [("timestamp", JsonVal.str "0000-00-00T11:00:00Z")])]
        ≠ analyze_log
            [Line.value (JsonVal.obj [("timestamp", JsonVal.str "0000-00-00T11:00:00Z")]),
              Line.value (JsonVal.obj [("timestamp", JsonVal.str "0000-00-00T10:00:00Z")])] := by
  have h10 : (analyze_log
        [Line.value (JsonVal.obj [("timestamp", JsonVal.str "0000-00-00T10:00:00Z")]),
          Line.value (JsonVal.obj [("timestamp", JsonVal.str "0000-00-00T11:00:00Z")])]).map
      (fun r => r.busiest_hour) = some (some 10) := by decide
  have h11 : (analyze_log
        [Line.value (JsonVal.obj [("timestamp", JsonVal.str "0000-00-00T11:00:00Z")]),
          Line.value (JsonVal.obj [("timestamp", JsonVal.str "0000-00-00T10:00:00Z")])]).map
      (fun r => r.busiest_hour) = some (some 11) := by decide
  refine ⟨List.Perm.swap _ _ _, h10, h11, ?_⟩
  intro heq
  rw [heq, h11] at h10
  exact absurd h10 (by decide)

/-- C3, amended.  Reordering the input lines leaves `total_requests`,
`average_response_time_ms` (over exact arithmetic) and
`status_code_counts` read as a mapping unchanged — and also preserves
whether the run fails at all — but `busiest_hour` may change when hours
tie, as the counterexample shows, so only the `coreView` of the result is
permutation-invariant. -/
theorem c3_amended_core_perm_invariant (l1 l2 : List Line) (hp : l1.Perm l2) :
    (analyze_log l1).map coreView = (analyze_log l2).map coreView := by
  by_cases hf : l1.any lineFatal = true
  · have hf2 : l2.any lineFatal = true := by
      rw [List.any_eq_true] at hf ⊢
      obtain ⟨l, hl, hfa⟩ := hf
      exact ⟨l, hp.mem_iff.mp hl, hfa⟩
    have h1 : analyze_log l1 = none := by
      rw [analyze_log, Option.map_eq_none']
      exact (runLines_eq_none_iff l1 AccState.init).mpr hf
    have h2 : analyze_log l2 = none := by
      rw [analyze_log, Option.map_eq_none']
      exact (runLines_eq_none_iff l2 AccState.init).mpr hf2
    rw [h1, h2]
  · have hno1 : ∀ l ∈ l1, lineFatal l = false := by
      intro l hl
      by_contra hc
      exact hf (List.any_eq_true.mpr ⟨l, hl, by simpa using hc⟩)
    have hno2 : ∀ l ∈ l2, lineFatal l = false := fun l hl => hno1 l (hp.mem_iff.mpr hl)
    rw [analyze_log, analyze_log, runLines_eq_foldl l1 _ hno1, runLines_eq_foldl l2 _ hno2]
    simp only [Option.map_some']
    congr 1
    have htot : (l1.foldl stepPure AccState.init).total_requests
        = (l2.foldl stepPure AccState.init).total_requests := by
      rw [foldl_total l1 _ hno1, foldl_total l2 _ hno2, hp.countP_eq]
    have hrts : (l1.foldl stepPure AccState.init).response_time_sum
        = (l2.foldl stepPure AccState.init).response_time_sum := by
      rw [foldl_rtsum l1 _ hno1, foldl_rtsum l2 _ hno2, (hp.map lineRT).sum_eq]
    have hlook : (fun s => lookupCount (l1.foldl stepPure AccState.init).status_code_counts s)
        = fun s => lookupCount (l2.foldl stepPure AccState.init).status_code_counts s := by
      funext s
      rw [foldl_statusLookup l1 _ s hno1, foldl_statusLookup l2 _ s hno2, hp.countP_eq]
    have hfin : ∀ a : AccState, coreView (finalize a)
        = (a.total_requests,
           round2 (if 0 < a.total_requests then
             a.response_time_sum / (a.total_requests : ℚ) else 0),
           fun s => lookupCount a.status_code_counts s) := fun a => rfl
    rw [hfin _, hfin _, htot, hrts, hlook]

/-- C3, witness for the amended theorem at the counterexample's swapped
pair of lines: the core views agree even though the full results
differ. -/
theorem c3_witness :
    (analyze_log
          [Line.value (JsonVal.obj [("timestamp", JsonVal.str "0000-00-00T11:00:00Z")]),
            Line.value (JsonVal.obj [("timestamp", JsonVal.str "0000-00-00T10:00:00Z")])]).map
        coreView
      = (analyze_log
            [Line.value (JsonVal.obj [("timestamp", JsonVal.str "0000-00-00T10:00:00Z")]),
              Line.value (JsonVal.obj [("timestamp", JsonVal.str "0000-00-00T11:00:00Z")])]).map
          coreView :=
  c3_amended_core_perm_invariant _ _
    (List.Perm.swap (Line.value (JsonVal.obj [("timestamp", JsonVal.str "0000-00-00T10:00:00Z")]))
      (Line.value (JsonVal.obj [("timestamp", JsonVal.str "0000-00-00T11:00:00Z")])) [])

/-! ### Structure of the hourly map: counts, key order, and Python max -/

theorem lookupCount_zero_or_entry {α : Type} [DecidableEq α] (m : List (α × ℕ)) (k : α) :
    lookupCount m k = 0 ∨ ∃ q ∈ m, q.1 = k ∧ q.2 = lookupCount m k := by
  induction m with
  | nil => exact Or.inl rfl
  | cons p t ih =>
      by_cases h1 : p.1 = k
      · exact Or.inr ⟨p, List.mem_cons_self p t, h1, by simp [lookupCount, h1]⟩
      · rcases ih with h | ⟨q, hq, hq1, hq2⟩
        · exact Or.inl (by simp [lookupCount, h1, h])
        · exact Or.inr ⟨q, List.mem_cons_of_mem p hq, hq1,
            by simp [lookupCount, h1, hq2]⟩

theorem lookupCount_of_mem {α : Type} [DecidableEq α] (m : List (α × ℕ))
    (hnd : (m.map Prod.fst).Nodup) (p : α × ℕ) (hp : p ∈ m) :
    lookupCount m p.1 = p.2 := by
  induction m with
  | nil => cases hp
  | cons p0 t ih =>
      rcases List.mem_cons.mp hp with rfl | hp2
      · simp [lookupCount]
      · rw [List.map_cons] at hnd
        have h1 : ¬ p0.1 = p.1 := by
          intro hc
          have hmem : p.1 ∈ t.map Prod.fst := List.mem_map.mpr ⟨p, hp2, rfl⟩
          exact (List.nodup_cons.mp hnd).1 (hc ▸ hmem)
        rw [lookupCount, if_neg h1]
        exact ih (List.nodup_cons.mp hnd).2 hp2

theorem idxIn_append_of_mem (hs t : List ℤ) (a : ℤ) (ha : a ∈ hs) :
    idxIn (hs ++ t) a = idxIn hs a := by
  induction hs with
  | nil => cases ha
  | cons x r ih =>
      by_cases hx : x = a
      · simp [idxIn, hx]
      · have ha2 : a ∈ r := by
          rcases List.mem_cons.mp ha with h | h
          · exact absurd h.symm hx
          · exact h
        simp [idxIn, hx, ih ha2]

theorem idxIn_lt_length (hs : List ℤ) (a : ℤ) (ha : a ∈ hs) :
    idxIn hs a < hs.length := by
  induction hs with
  | nil => cases ha
  | cons x r ih =>
      by_cases hx : x = a
      · simp [idxIn, hx]
      · have ha2 : a ∈ r := by
          rcases List.mem_cons.mp ha with h | h
          · exact absurd h.symm hx
          · exact h
        simp [idxIn, hx]
        exact ih ha2

theorem idxIn_append_self (hs : List ℤ) (k : ℤ) (hk : k ∉ hs) :
    idxIn (hs ++ [k]) k = hs.length := by
  induction hs with
  | nil => simp [idxIn]
  | cons x r ih =>
      have hx : ¬ x = k := fun hc => hk (hc ▸ List.mem_cons_self x r)
      have hk2 : k ∉ r := fun hc => hk (List.mem_cons_of_mem x hc)
      simp [idxIn, hx, ih hk2]

theorem bump_keys_of_mem {α : Type} [DecidableEq α] (m : List (α × ℕ)) (k : α)
    (hk : k ∈ m.map Prod.fst) :
    (bump m k).map Prod.fst = m.map Prod.fst := by
  induction m with
  | nil => cases hk
  | cons p t ih =>
      by_cases h1 : p.1 = k
      · simp [bump, h1]
      · have hk2 : k ∈ t.map Prod.fst := by
          rcases List.mem_map.mp hk with ⟨q, hq, hq1⟩
          rcases List.mem_cons.mp hq with rfl | hq2
          · exact absurd hq1 h1
          · exact List.mem_map.mpr ⟨q, hq2, hq1⟩
        simp [bump, h1, ih hk2]

theorem bump_of_not_mem {α : Type} [DecidableEq α] (m : List (α × ℕ)) (k : α)
    (hk : k ∉ m.map Prod.fst) :
    bump m k = m ++ [(k, 1)] := by
  induction m with
  | nil => rfl
  | cons p t ih =>
      have h1 : ¬ p.1 = k := by
        intro hc
        exact hk (by simp [hc])
      have hk2 : k ∉ t.map Prod.fst := by
        intro hc
        exact hk (by simp; right; simpa using hc)
      simp [bump, h1, ih hk2]

theorem goodHourly_bump (hs : List ℤ) (m : List (ℤ × ℕ)) (k : ℤ)
    (hg : goodHourly hs m) : goodHourly (hs ++ [k]) (bump m k) := by
  obtain ⟨h1, h2, h3, h4⟩ := hg
  have hksplit : ∀ k' : ℤ, (hs ++ [k]).count k' = hs.count k' + (if k = k' then 1 else 0) := by
    intro k'
    rw [List.count_append, List.count_singleton]
    by_cases hkk : k = k' <;> simp [hkk]
  refine ⟨?_, ?_, ?_, ?_⟩
  · intro k'
    rw [bump_lookupCount, h1 k', hksplit k']
  · intro k'
    rw [bump_keys_mem, h2 k']
    simp [List.mem_append]
    tauto
  · by_cases hk : k ∈ m.map Prod.fst
    · rw [bump_keys_of_mem m k hk]
      exact h3
    · rw [bump_of_not_mem m k hk]
      rw [List.map_append]
      rw [List.nodup_append]
      refine ⟨h3, by simp, ?_⟩
      intro a ha
      simp only [List.map_cons, List.map_nil, List.mem_singleton]
      intro hak
      exact hk (hak ▸ ha)
  · by_cases hk : k ∈ m.map Prod.fst
    · rw [bump_keys_of_mem m k hk]
      refine h4.imp_of_mem ?_
      intro a b ha hb hab
      have ha2 : a ∈ hs := (h2 a).mp ha
      have hb2 : b ∈ hs := (h2 b).mp hb
      rw [idxIn_append_of_mem hs [k] a ha2, idxIn_append_of_mem hs [k] b hb2]
      exact hab
    · rw [bump_of_not_mem m k hk, List.map_append]
      rw [List.pairwise_append]
      have hknotin : k ∉ hs := fun hc => hk ((h2 k).mpr hc)
      refine ⟨?_, by simp, ?_⟩
      · refine h4.imp_of_mem ?_
        intro a b ha hb hab
        have ha2 : a ∈ hs := (h2 a).mp ha
        have hb2 : b ∈ hs := (h2 b).mp hb
        rw [idxIn_append_of_mem hs [k] a ha2, idxIn_append_of_mem hs [k] b hb2]
        exact hab
      · intro a ha b hb
        simp only [List.map_cons, List.map_nil, List.mem_singleton] at hb
        subst hb
        have ha2 : a ∈ hs := (h2 a).mp ha
        rw [idxIn_append_of_mem hs [b] a ha2, idxIn_append_self hs b hknotin]
        exact idxIn_lt_length hs a ha2

theorem goodHourly_build (hs : List ℤ) :
    goodHourly hs (hs.foldl bump ([] : List (ℤ × ℕ))) := by
  induction hs using List.reverseRecOn with
  | nil =>
      refine ⟨fun k => rfl, fun k => by simp [lookupCount], by simp, by simp⟩
  | append_singleton hs k ih =>
      rw [List.foldl_append, List.foldl_cons, List.foldl_nil]
      exact goodHourly_bump hs _ k ih

theorem maxGo_spec (rest : List (ℤ × ℕ)) :
    ∀ (k : ℤ) (c : ℕ),
      (maxGo k c rest = k ∧ ∀ q ∈ rest, q.2 ≤ c) ∨
      (∃ pre p post, rest = pre ++ p :: post ∧ maxGo k c rest = p.1 ∧ c < p.2 ∧
        (∀ q ∈ pre, q.2 < p.2) ∧ (∀ q ∈ post, q.2 ≤ p.2)) := by
  induction rest with
  | nil => intro k c; exact Or.inl ⟨rfl, by simp⟩
  | cons p2 t ih =>
      intro k c
      rcases p2 with ⟨k2, c2⟩
      by_cases hc : c < c2
      · rw [maxGo, if_pos hc]
        rcases ih k2 c2 with ⟨hEq, hB⟩ | ⟨pre, p, post, ht, hEq, hcp, hpre, hpost⟩
        · exact Or.inr ⟨[], (k2, c2), t, rfl, hEq, hc, by simp, hB⟩
        · refine Or.inr ⟨(k2, c2) :: pre, p, post, by rw [ht]; rfl, hEq,
            lt_trans hc hcp, ?_, hpost⟩
          intro q hq
          rcases List.mem_cons.mp hq with rfl | hq2
          · exact hcp
          · exact hpre q hq2
      · rw [maxGo, if_neg hc]
        rcases ih k c with ⟨hEq, hB⟩ | ⟨pre, p, post, ht, hEq, hcp, hpre, hpost⟩
        · refine Or.inl ⟨hEq, ?_⟩
          intro q hq
          rcases List.mem_cons.mp hq with rfl | hq2
          · exact Nat.le_of_not_lt hc
          · exact hB q hq2
        · refine Or.inr ⟨(k2, c2) :: pre, p, post, by rw [ht]; rfl, hEq, hcp, ?_, hpost⟩
          intro q hq
          rcases List.mem_cons.mp hq with rfl | hq2
          · exact lt_of_le_of_lt (Nat.le_of_not_lt hc) hcp
          · exact hpre q hq2

theorem pyMaxByGet_spec (m : List (ℤ × ℕ)) (h : ℤ) (hm : pyMaxByGet m = some h) :
    ∃ pre p post, m = pre ++ p :: post ∧ p.1 = h ∧
      (∀ q ∈ m, q.2 ≤ p.2) ∧ (∀ q ∈ pre, q.2 < p.2) := by
  cases m with
  | nil => cases hm
  | cons p0 rest =>
      rcases p0 with ⟨k0, c0⟩
      rw [pyMaxByGet] at hm
      injection hm with hm2
      rcases maxGo_spec rest k0 c0 with ⟨hEq, hB⟩ | ⟨pre, p, post, ht, hEq, hcp, hpre, hpost⟩
      · refine ⟨[], (k0, c0), rest, rfl, by rw [← hm2, hEq], ?_, by simp⟩
        intro q hq
        rcases List.mem_cons.mp hq with rfl | hq2
        · exact le_refl _
        · exact hB q hq2
      · refine ⟨(k0, c0) :: pre, p, post, by rw [ht]; rfl, by rw [← hm2, hEq], ?_, ?_⟩
        · intro q hq
          rcases List.mem_cons.mp hq with rfl | hq2
          · exact le_of_lt hcp
          · rw [ht] at hq2
            rcases List.mem_append.mp hq2 with h3 | h3
            · exact le_of_lt (hpre q h3)
            · rcases List.mem_cons.mp h3 with rfl | h4
              · exact le_refl _
              · exact hpost q h4
        · intro q hq
          rcases List.mem_cons.mp hq with rfl | hq2
          · exact hcp
          · exact hpre q hq2

theorem busiest_spec (hs : List ℤ) (h : ℤ)
    (hm : pyMaxByGet (hs.foldl bump ([] : List (ℤ × ℕ))) = some h) :
    (∀ k, hs.count k ≤ hs.count h) ∧
      (∀ k, hs.count k = hs.count h → k ≠ h → idxIn hs h < idxIn hs k) := by
  obtain ⟨h1, h2, h3, h4⟩ := goodHourly_build hs
  obtain ⟨pre, p, post, hsplit, hph, hmax, hpre⟩ :=
    pyMaxByGet_spec (hs.foldl bump ([] : List (ℤ × ℕ))) h hm
  have hpm : p ∈ hs.foldl bump ([] : List (ℤ × ℕ)) := by
    rw [hsplit]
    exact List.mem_append.mpr (Or.inr (List.mem_cons_self p post))
  have hlookp : lookupCount (hs.foldl bump ([] : List (ℤ × ℕ))) p.1 = p.2 :=
    lookupCount_of_mem _ h3 p hpm
  have hcounth : hs.count h = p.2 := by
    rw [← h1 h, ← hph, hlookp]
  have hhin : h ∈ hs := by
    refine (h2 h).mp ?_
    exact hph ▸ List.mem_map.mpr ⟨p, hpm, rfl⟩
  constructor
  · intro k
    rw [hcounth, ← h1 k]
    rcases lookupCount_zero_or_entry (hs.foldl bump ([] : List (ℤ × ℕ))) k with hz | ⟨q, hq, hq1, hq2⟩
    · rw [hz]; exact Nat.zero_le _
    · rw [← hq2]
      exact hmax q hq
  · intro k hkc hkh
    have hkpos : 0 < hs.count k := by
      rw [hkc, hcounth]
      have := hcounth ▸ List.count_pos_iff.mpr hhin
      omega
    have hkin : k ∈ hs := List.count_pos_iff.mp hkpos
    have hkkeys : k ∈ (hs.foldl bump ([] : List (ℤ × ℕ))).map Prod.fst := (h2 k).mpr hkin
    obtain ⟨q, hq, hq1⟩ := List.mem_map.mp hkkeys
    have hlookq : lookupCount (hs.foldl bump ([] : List (ℤ × ℕ))) q.1 = q.2 :=
      lookupCount_of_mem _ h3 q hq
    have hq2 : q.2 = hs.count k := by
      rw [← hlookq, hq1, h1 k]
    rw [hsplit] at hq
    rcases List.mem_append.mp hq with hqpre | hqrest
    · exfalso
      have := hpre q hqpre
      rw [hq2, hkc, hcounth] at this
      omega
    · rcases List.mem_cons.mp hqrest with rfl | hqpost
      · exact absurd (hq1.symm.trans hph) hkh
      · have hpw := h4
        rw [hsplit, List.map_append, List.map_cons] at hpw
        have hcross := (List.pairwise_append.mp hpw).2.1
        have hconspw := List.pairwise_cons.mp hcross
        have hbmem : q.1 ∈ post.map Prod.fst := List.mem_map.mpr ⟨q, hqpost, rfl⟩
        have := hconspw.1 q.1 hbmem
        rw [hph, hq1] at this
        exact this

theorem firstContrib_of_idxIn (lines : List Line) :
    ∀ a b : ℤ, a ∈ lines.filterMap contribHour → b ∈ lines.filterMap contribHour →
      idxIn (lines.filterMap contribHour) a < idxIn (lines.filterMap contribHour) b →
      firstContribIdx lines a < firstContribIdx lines b := by
  induction lines with
  | nil =>
      intro a b ha
      simp at ha
  | cons l t ih =>
      intro a b ha hb hlt
      cases hc : contribHour l with
      | none =>
          simp only [List.filterMap_cons, hc] at ha hb hlt
          have hrec := ih a b ha hb hlt
          have h1 : ¬ contribHour l = some a := by rw [hc]; simp
          have h2 : ¬ contribHour l = some b := by rw [hc]; simp
          rw [firstContribIdx, if_neg h1, firstContribIdx, if_neg h2]
          omega
      | some c =>
          simp only [List.filterMap_cons, hc] at ha hb hlt
          by_cases hca : c = a
          · by_cases hcb : c = b
            · exfalso
              rw [idxIn, if_pos hca, idxIn, if_pos hcb] at hlt
              omega
            · have h1 : contribHour l = some a := by rw [hc, hca]
              have h2 : ¬ contribHour l = some b := by rw [hc]; simp [hcb]
              rw [firstContribIdx, if_pos h1, firstContribIdx, if_neg h2]
              omega
          · have h1 : ¬ contribHour l = some a := by rw [hc]; simp [hca]
            by_cases hcb : c = b
            · exfalso
              rw [idxIn, if_neg hca, idxIn, if_pos hcb] at hlt
              omega
            · have ha2 : a ∈ List.filterMap contribHour t := by
                rcases List.mem_cons.mp ha with h | h
                · exact absurd h.symm hca
                · exact h
              have hb2 : b ∈ List.filterMap contribHour t := by
                rcases List.mem_cons.mp hb with h | h
                · exact absurd h.symm hcb
                · exact h
              have hlt2 : idxIn (List.filterMap contribHour t) a
                  < idxIn (List.filterMap contribHour t) b := by
                rw [idxIn, if_neg hca, idxIn, if_neg hcb] at hlt
                omega
              have hrec := ih a b ha2 hb2 hlt2
              have h2 : ¬ contribHour l = some b := by rw [hc]; simp [hcb]
              rw [firstContribIdx, if_neg h1, firstContribIdx, if_neg h2]
              omega

/-! ### Claim C10 -/

/-- C10, confirmed.  Whenever the run returns a result whose
`busiest_hour` is `some h`: `h`'s contribution count is maximal, and for
every other hour `k` tied with `h`, the first line contributing `h`
occurs strictly earlier in the input than the first line contributing
`k` — Python's `max` over the insertion-ordered dict returns the first
key attaining the maximum, and keys are inserted at the first
contribution.  Deterministic for a fixed input, but dependent on line
order among tied hours (claim C3's counterexample). -/
theorem c10_tie_breaks_by_first_contribution (lines : List Line) (r : AnalysisResult)
    (h : ℤ) (h1 : analyze_log lines = some r) (h2 : r.busiest_hour = some h) :
    (∀ k, hourCount lines k ≤ hourCount lines h) ∧
      (∀ k, hourCount lines k = hourCount lines h → k ≠ h →
        firstContribIdx lines h < firstContribIdx lines k) := by
  obtain ⟨hno, hr⟩ := analyze_log_some lines r h1
  rw [hr] at h2
  have hb : pyMaxByGet (lines.foldl stepPure AccState.init).hourly_requests = some h := h2
  rw [foldl_hourly lines AccState.init hno] at hb
  have hb2 : pyMaxByGet ((lines.filterMap contribHour).foldl bump ([] : List (ℤ × ℕ)))
      = some h := hb
  obtain ⟨hmax, htie⟩ := busiest_spec (lines.filterMap contribHour) h hb2
  refine ⟨fun k => hmax k, ?_⟩
  intro k hkc hkh
  have hidx := htie k hkc hkh
  have hhin : h ∈ lines.filterMap contribHour := by
    have hkeys := pyMaxByGet_mem _ h hb2
    rw [foldl_bump_keys_mem] at hkeys
    rcases hkeys with hk | hk
    · simp at hk
    · exact hk
  have hkin : k ∈ lines.filterMap contribHour := by
    have hkc2 : (lines.filterMap contribHour).count k
        = (lines.filterMap contribHour).count h := hkc
    have hpos : 0 < (lines.filterMap contribHour).count h := List.count_pos_iff.mpr hhin
    exact List.count_pos_iff.mp (by omega)
  exact firstContrib_of_idxIn lines h k hhin hkin hidx

/-- C10, witness: hours 10 and 11 tied with two contributions each; hour
10's first contribution comes first in the input, and the tie breaks to
10: its first-contribution index is smaller than 11's. -/
theorem c10_witness :
    firstContribIdx
        [Line.value (JsonVal.obj [("timestamp", JsonVal.str "0000-00-00T10:00:00Z")]),
          Line.value (JsonVal.obj [("timestamp", JsonVal.str "0000-00-00T11:00:00Z")]),
          Line.value (JsonVal.obj [("timestamp", JsonVal.str "0000-00-00T11:00:00Z")]),
          Line.value (JsonVal.obj [("timestamp", JsonVal.str "0000-00-00T10:00:00Z")])]
        10
      < firstContribIdx
          [Line.value (JsonVal.obj [("timestamp", JsonVal.str "0000-00-00T10:00:00Z")]),
            Line.value (JsonVal.obj [("timestamp", JsonVal.str "0000-00-00T11:00:00Z")]),
            Line.value (JsonVal.obj [("timestamp", JsonVal.str "0000-00-00T11:00:00Z")]),
            Line.value (JsonVal.obj [("timestamp", JsonVal.str "0000-00-00T10:00:00Z")])]
          11 :=
  (c10_tie_breaks_by_first_contribution
      [Line.value (JsonVal.obj [("timestamp", JsonVal.str "0000-00-00T10:00:00Z")]),
        Line.value (JsonVal.obj [("timestamp", JsonVal.str "0000-00-00T11:00:00Z")]),
        Line.value (JsonVal.obj [("timestamp", JsonVal.str "0000-00-00T11:00:00Z")]),
        Line.value (JsonVal.obj [("timestamp", JsonVal.str "0000-00-00T10:00:00Z")])]
      (finalize ⟨4, 0, [], [(10, 2), (11, 2)]⟩) 10
      (by
        rw [analyze_log,
          (by decide : runLines AccState.init
            [Line.value (JsonVal.obj [("timestamp", JsonVal.str "0000-00-00T10:00:00Z")]),
              Line.value (JsonVal.obj [("timestamp", JsonVal.str "0000-00-00T11:00:00Z")]),
              Line.value (JsonVal.obj [("timestamp", JsonVal.str "0000-00-00T11:00:00Z")]),
              Line.value (JsonVal.obj [("timestamp", JsonVal.str "0000-00-00T10:00:00Z")])]
              = some ⟨4, 0, [], [(10, 2), (11, 2)]⟩)]
        rfl)
      rfl).2 11 (by decide) (by decide)
